import Mathlib

/-!
Verification of the `wtf-ds.py` JSON structure profiler.

This file gives a shallow embedding of the program: the decoded JSON value
type, the family of aggregators (`ValueAggregator`, `DictAggregator`,
`ArrayAggregator`, `StringAggregator`, `IntegerAggregator`,
`BooleanAggregator`, `NullAggregator`), their `add` methods, their `__str__`
renderings (including ANSI color styling from the `colored` library and the
JSON string escaping done by `json.dumps(..., ensure_ascii=False)`), the
`print` tree walk, and the `main` pipeline.  Theorems about the embedding
settle the claims of the specification.

Notes on the embedding:
* Python strings are Lean `String`s; Python compares strings by code point,
  which we model with an explicit lexicographic comparison `lexLe` on the
  character list (the same relation as Lean's `String` order, but one that
  the kernel can evaluate).
* Python ints are Lean `Int`s.  Python floats are modelled by `PyFloat`:
  NaN (which the stdlib `json` fallback parses by default) plus finite
  doubles carried as an exact sign/numerator/denominator triple.  Python's
  `==`/`<` on floats (signed zeros equal, NaN incomparable), `repr`
  (restricted to floats whose shortest repr is their exact decimal
  expansion, which covers every value used here), the identity-aware
  counting dict, and CPython's `list.sort` for short lists (one natural
  run extended by binary insertion) are modelled exactly, because the
  float variant of the Number accumulator is sensitive to them.
* Python dicts are modelled as association lists in insertion order, which
  is exactly the iteration order of a CPython dict.
* `colored.stylize(text, colored.fg(n))` produces the 256-color escape
  `"\x1b[38;5;<n>m" ++ text ++ "\x1b[0m"`; `colored.fg("green")` is palette
  index 2.
-/

/-- MAX_STRING_LENGTH from the source. -/
def MAX_STRING_LENGTH : Nat := 36

/-- MAX_VALUES_TO_SHOW from the source. -/
def MAX_VALUES_TO_SHOW : Nat := 3

/-- KEY_COLOR = "green": the `colored` library maps the name "green" to
palette index 2. -/
def KEY_COLOR : Nat := 2

/-- TYPE_COLOR from the source. -/
def TYPE_COLOR : Nat := 129

/-- STRING_COLOR from the source. -/
def STRING_COLOR : Nat := 88

/-- NUMBER_COLOR from the source. -/
def NUMBER_COLOR : Nat := 150

/-- COUNTER_COLOR from the source. -/
def COUNTER_COLOR : Nat := 14

/-- BOOLEAN_COLOR from the source. -/
def BOOLEAN_COLOR : Nat := 11

/-- The 256-color foreground escape produced by `colored.fg`. -/
def fg (n : Nat) : String := "\x1b[38;5;" ++ toString n ++ "m"

/-- The reset escape appended by `colored.stylize`. -/
def resetCode : String := "\x1b[0m"

/-- `colored.stylize(text, sty)`: style escape, text, reset. -/
def stylize (text sty : String) : String := sty ++ text ++ resetCode

/-- One hexadecimal digit, lowercase, as used by `json.dumps` in `\u00XX`
escapes. -/
def hexDigit (n : Nat) : Char :=
  if n < 10 then Char.ofNat (48 + n) else Char.ofNat (87 + n)

/-- JSON escaping of a single character, as done by
`json.dumps(s, ensure_ascii=False)`: quote and backslash are escaped, the
common control characters get short escapes, other control characters get
`\u00XX`, and everything else (including non-ASCII) is kept as is. -/
def jsonEscChar (c : Char) : List Char :=
  if c = '"' then ['\\', '"']
  else if c = '\\' then ['\\', '\\']
  else if c = '\n' then ['\\', 'n']
  else if c = '\t' then ['\\', 't']
  else if c = '\r' then ['\\', 'r']
  else if c = Char.ofNat 8 then ['\\', 'b']
  else if c = Char.ofNat 12 then ['\\', 'f']
  else if c.toNat < 32 then ['\\', 'u', '0', '0', hexDigit (c.toNat / 16), hexDigit (c.toNat % 16)]
  else [c]

/-- JSON escaping of a character sequence. -/
def jsonEscape : List Char → List Char
  | [] => []
  | c :: cs => jsonEscChar c ++ jsonEscape cs

/-- `json.dumps(s, ensure_ascii=False)` for a string: a double-quoted,
escaped rendering. -/
def jsonDumps (s : String) : String := String.mk ('"' :: jsonEscape s.data ++ ['"'])

/-- The Python slice `s[:n]`: the first `n` characters. -/
def pyTake (s : String) (n : Nat) : String := String.mk (s.data.take n)

/-- The Python slice `s[:-1]`: all characters but the last. -/
def pyDropLast (s : String) : String := String.mk s.data.dropLast

/-- `Ckey` from the source. -/
def Ckey (key : String) : String := stylize key (fg KEY_COLOR)

/-- `Ctype` from the source. -/
def Ctype (t : String) : String := stylize t (fg TYPE_COLOR)

/-- `Cstr` from the source: strings longer than `MAX_STRING_LENGTH` are
truncated to that many characters, JSON-encoded, stripped of the closing
quote, and rendered with an ellipsis and a styled closing quote; short
strings are JSON-encoded whole. -/
def Cstr (s : String) : String :=
  if MAX_STRING_LENGTH < s.length then
    stylize (pyDropLast (jsonDumps (pyTake s MAX_STRING_LENGTH))) (fg STRING_COLOR) ++ "…" ++
      stylize "\"" (fg STRING_COLOR)
  else
    stylize (jsonDumps s) (fg STRING_COLOR)

/-- `Cnum` from the source, at integer values: `repr` of a Python int is its
decimal notation. -/
def Cnum (v : Int) : String := stylize (toString v) (fg NUMBER_COLOR)

/-- `Ccnt` from the source, at integer counters. -/
def Ccnt (v : Nat) : String := stylize (toString v) (fg COUNTER_COLOR)

/-- `Ccnt` applied to a `min_len`/`max_len` field, which is `None` before the
first observation: `str(None)` is `"None"`. -/
def CcntO (v : Option Nat) : String :=
  stylize (match v with | none => "None" | some n => toString n) (fg COUNTER_COLOR)

/-- `Cbool` from the source. -/
def Cbool (v : Bool) : String := stylize (if v then "true" else "false") (fg BOOLEAN_COLOR)

/-- Lexicographic comparison of character sequences by code point: the
relation Python uses to compare strings. -/
def lexLe : List Char → List Char → Bool
  | [], _ => true
  | _ :: _, [] => false
  | a :: as, b :: bs =>
    if a < b then true
    else if b < a then false
    else lexLe as bs

/-- Python string comparison `a <= b` (code-point lexicographic). -/
def sLe (a b : String) : Bool := lexLe a.data b.data

/-- Python integer comparison `a <= b`. -/
def iLe (a b : Int) : Bool := decide (a ≤ b)

/-- The distinct values of a list in first-occurrence order: the key order of
the Python dict built by `d[v] += 1` over the list. -/
def pyKeys {α : Type} [DecidableEq α] : List α → List α
  | [] => []
  | x :: xs => x :: (pyKeys xs).filter (fun a => decide (a ≠ x))

/-- The `(value, count)` items of the Python counting dict built from a list,
in first-occurrence key order. -/
def countsList {α : Type} [DecidableEq α] (l : List α) : List (α × Nat) :=
  (pyKeys l).map (fun v => (v, l.count v))

/-- The sort key `lambda x: (-x[1], x[0])` of the source, as a relation on
`(value, count)` pairs: larger counts first, ties by ascending value. -/
def pairR {α : Type} (le : α → α → Bool) (p q : α × Nat) : Prop :=
  q.2 < p.2 ∨ (p.2 = q.2 ∧ le p.1 q.1 = true)

instance {α : Type} (le : α → α → Bool) : DecidableRel (pairR le) := fun p q => by
  unfold pairR; infer_instance

/-- `sorted(d.items(), key=lambda x: (-x[1], x[0]))` from the source.  The
keys of distinct items are distinct, so any sort by this total relation
produces the Python result. -/
def sortedCounts {α : Type} [DecidableEq α] (le : α → α → Bool) (l : List α) :
    List (α × Nat) :=
  List.insertionSort (pairR le) (countsList l)

/-- Python `min(values)`: the running minimum of a nonempty list (`None`
marks the empty list, where Python raises). -/
def pyMin {α : Type} (le : α → α → Bool) : List α → Option α
  | [] => none
  | x :: xs => some (xs.foldl (fun m v => if le m v then m else v) x)

/-- Python `max(values)`: the running maximum of a nonempty list. -/
def pyMax {α : Type} (le : α → α → Bool) : List α → Option α
  | [] => none
  | x :: xs => some (xs.foldl (fun m v => if le v m then m else v) x)

/-- One `"<count>×<value>"` entry of a distribution rendering. -/
def entryFmt {α : Type} (fmt : α → String) (p : α × Nat) : String :=
  Ccnt p.2 ++ "×" ++ fmt p.1

/-- The shared body of `StringAggregator.__str__` and
`NumberAggregator.__str__`: count the distinct values; a single distinct
value is rendered alone; otherwise the `(value, count)` pairs are sorted by
`(-count, value)`, the first `MAX_VALUES_TO_SHOW` are rendered, and when more
distinct values remain a `"<rest>×…"` entry is appended and the whole string
is prefixed with `"<distinct>←|<min>…<max>|: "`. -/
def distRender {α : Type} [DecidableEq α] (le : α → α → Bool) (fmt : α → String)
    (values : List α) : String :=
  let d := countsList values
  if d.length = 1 then
    match d with
    | (v, _) :: _ => fmt v
    | [] => ""
  else
    let sortedItems := List.insertionSort (pairR le) d
    let textValues := (sortedItems.take MAX_VALUES_TO_SHOW).map (entryFmt fmt)
    let otherC := ((sortedItems.drop MAX_VALUES_TO_SHOW).map (fun p => p.2)).sum
    if otherC = 0 then
      String.intercalate ", " textValues
    else
      match pyMin le values, pyMax le values with
      | some mn, some mx =>
        Ccnt d.length ++ "←|" ++ fmt mn ++ "…" ++ fmt mx ++ "|: " ++
          String.intercalate ", " (textValues ++ [Ccnt otherC ++ "×…"])
      | _, _ => ""

/-- `StringAggregator.__str__` as a function of the accumulated value list. -/
def strAggStr (values : List String) : String := distRender sLe Cstr values

/-- `IntegerAggregator.__str__` (inherited from `NumberAggregator`) as a
function of the accumulated value list. -/
def intAggStr (values : List Int) : String := distRender iLe Cnum values

/-- `StringAggregator.add` / `NumberAggregator.add`: append to the value
list. -/
def leafAdd {α : Type} (values : List α) (v : α) : List α := values ++ [v]

/-- A sequence of `add` calls to a fresh leaf accumulator. -/
def leafAddAll {α : Type} (calls : List α) : List α := calls.foldl leafAdd []

/-- The total occurrence count recorded by a leaf accumulator. -/
def sumCounts {α : Type} [DecidableEq α] (values : List α) : Nat :=
  ((countsList values).map (fun p => p.2)).sum

/-- A Python float object as decoded from a JSON number.  `nan` is the
float the stdlib `json` fallback produces for the literal `NaN` (accepted
by default); `fin neg num den` is a finite double whose exact value is
`(-1)^neg * num / den` with `den > 0` — in particular `fin false 0 1` is
`0.0` and `fin true 0 1` is `-0.0`, distinct objects with distinct reprs
that compare `==`-equal.  Each decoded literal is a fresh CPython object,
so the identity shortcut in `==` never fires between two occurrences; two
NaN objects therefore never compare equal, which `pyFltEq` reflects. -/
inductive PyFloat where
  | nan
  | fin (neg : Bool) (num den : Nat)
deriving DecidableEq

/-- The signed numerator and denominator of a float's exact value, `none`
for NaN. -/
def pyFltVal : PyFloat → Option (Int × Nat)
  | .nan => none
  | .fin neg n d => some (if neg then -(n : Int) else (n : Int), d)

/-- Python `==` between two (distinct) float objects: exact value equality
(`0.0 == -0.0` is true); any comparison with NaN is false. -/
def pyFltEq (a b : PyFloat) : Bool :=
  match pyFltVal a, pyFltVal b with
  | some (n1, d1), some (n2, d2) => decide (n1 * d2 = n2 * d1)
  | _, _ => false

/-- Python `<` on floats: exact value comparison; any comparison with NaN
is false. -/
def pyFltLt (a b : PyFloat) : Bool :=
  match pyFltVal a, pyFltVal b with
  | some (n1, d1), some (n2, d2) => decide (n1 * d2 < n2 * d1)
  | _, _ => false

/-- Decimal digits of the proper fraction `r / d` (`0 < r < d`), with a
fuel bound on the number of digits (ample for every float used here, whose
expansion terminates). -/
def fracDigits : Nat → Nat → Nat → String
  | 0, _, _ => ""
  | fuel + 1, r, d =>
    let r10 := r * 10
    toString (r10 / d) ++ (if r10 % d = 0 then "" else fracDigits fuel (r10 % d) d)

/-- The decimal rendering `repr` gives a nonnegative float whose shortest
repr is its exact decimal expansion (integers get a trailing `.0`). -/
def decRepr (n d : Nat) : String :=
  if n % d = 0 then toString (n / d) ++ ".0"
  else toString (n / d) ++ "." ++ fracDigits 30 (n % d) d

/-- Python `repr` of a float: `nan` for NaN, otherwise an optional sign and
the decimal expansion (`repr(-0.0)` is `"-0.0"`). -/
def pyFltRepr : PyFloat → String
  | .nan => "nan"
  | .fin neg n d => (if neg then "-" else "") ++ decRepr n d

/-- `Cnum` from the source, at float values. -/
def CnumF (v : PyFloat) : String := stylize (pyFltRepr v) (fg NUMBER_COLOR)

/-- One `d[v] += 1` on a counting dict under a given equality test: a hit
increments in place keeping the FIRST-inserted key object (CPython dicts
never replace an equal key), a miss appends at the end. -/
def pyCountsAdd {α : Type} (eqb : α → α → Bool) : List (α × Nat) → α → List (α × Nat)
  | [], v => [(v, 1)]
  | (k, c) :: rest, v =>
    if eqb k v then (k, c + 1) :: rest else (k, c) :: pyCountsAdd eqb rest v

/-- The counting dict built by the `d[v] += 1` loop of
`NumberAggregator.__str__`, under a given equality test.  For `Int` and
`String` values, where the test is plain equality, this agrees with
`countsList`; for floats the Python equality (`0.0 == -0.0`, NaN unequal to
everything) makes the two differ. -/
def pyCounts {α : Type} (eqb : α → α → Bool) (l : List α) : List (α × Nat) :=
  l.foldl (pyCountsAdd eqb) []

/-- Insertion at a position (CPython's binarysort memmove). -/
def listInsertAt {α : Type} : Nat → α → List α → List α
  | 0, x, l => x :: l
  | _ + 1, x, [] => [x]
  | n + 1, x, y :: ys => y :: listInsertAt n x ys

/-- The binary search of CPython's `binarysort`, probe for probe: narrow
`[lo, hi)` by testing `pivot < arr[(lo+hi)/2]` until empty.  The fuel only
bounds the iteration count (each step strictly shrinks the interval, so any
fuel of at least the interval width gives the CPython result); on an
inconsistent comparison such as Python's float `<` with NaN, the exact
probe sequence is what determines the result, which is why it is modelled
verbatim. -/
def binSearchAux {α : Type} (lt : α → α → Bool) (arr : List α) (pivot : α) :
    Nat → Nat → Nat → Nat
  | 0, lo, _ => lo
  | fuel + 1, lo, hi =>
    if lo < hi then
      match arr.get? ((lo + hi) / 2) with
      | some x =>
        if lt pivot x then binSearchAux lt arr pivot fuel lo ((lo + hi) / 2)
        else binSearchAux lt arr pivot fuel ((lo + hi) / 2 + 1) hi
      | none => lo
    else lo

/-- CPython's `binarysort`: insert each remaining element into the sorted
part at the position found by `binSearchAux`. -/
def binarysort {α : Type} (lt : α → α → Bool) : List α → List α → List α
  | sortedPart, [] => sortedPart
  | sortedPart, p :: rest =>
    binarysort lt
      (listInsertAt (binSearchAux lt sortedPart p sortedPart.length 0 sortedPart.length)
        p sortedPart) rest

/-- The ascending case of CPython's `count_run`: extend while
`not (a[k] < a[k-1])`.  Returns the run's tail and the remainder. -/
def countRunAsc {α : Type} (lt : α → α → Bool) : α → List α → List α × List α
  | _, [] => ([], [])
  | prev, x :: rest =>
    if lt x prev then ([], x :: rest)
    else
      let (run, rem) := countRunAsc lt x rest
      (x :: run, rem)

/-- The strictly-descending case of CPython's `count_run`: extend while
`a[k] < a[k-1]`. -/
def countRunDesc {α : Type} (lt : α → α → Bool) : α → List α → List α × List α
  | _, [] => ([], [])
  | prev, x :: rest =>
    if lt x prev then
      let (run, rem) := countRunDesc lt x rest
      (x :: run, rem)
    else ([], x :: rest)

/-- CPython `list.sort` (and hence `sorted`) for lists of fewer than 64
elements, where `minrun = n` and a single natural run is found by
`count_run` (a strictly descending prefix is reversed) and extended over
the whole list by `binarysort`; no merging occurs in this regime.  For a
total order this produces the usual stable sort; for Python's float `<`
with NaN it reproduces CPython's insertion-order-preserving behavior. -/
def pySorted {α : Type} (lt : α → α → Bool) : List α → List α
  | [] => []
  | [x] => [x]
  | a :: b :: rest =>
    if lt b a then
      let (run, rem) := countRunDesc lt b rest
      binarysort lt (a :: b :: run).reverse rem
    else
      let (run, rem) := countRunAsc lt b rest
      binarysort lt (a :: b :: run) rem

/-- The `sorted` key comparison of `NumberAggregator.__str__` at float
items: Python compares the key tuples `(-count, value)` element by element,
testing `==` before `<` at each position. -/
def ltFltKey (p q : PyFloat × Nat) : Bool :=
  if p.2 = q.2 then
    if pyFltEq p.1 q.1 then false else pyFltLt p.1 q.1
  else decide (q.2 < p.2)

/-- Python `min` over a float list: keep the current value unless the next
compares strictly smaller — with NaN present the result depends on
position, since no comparison with NaN succeeds. -/
def fltMin : List PyFloat → Option PyFloat
  | [] => none
  | x :: xs => some (xs.foldl (fun m v => if pyFltLt v m then v else m) x)

/-- Python `max` over a float list. -/
def fltMax : List PyFloat → Option PyFloat
  | [] => none
  | x :: xs => some (xs.foldl (fun m v => if pyFltLt m v then v else m) x)

/-- `FloatAggregator.__str__` — the `NumberAggregator.__str__` body at
float values, with the Python float semantics throughout: the counting dict
uses Python `==` (keeping the first-seen key object), the sort is CPython's
`sorted` under the `(-count, value)` key, and `min`/`max` run over the raw
value list with Python `<`. -/
def fltAggStr (values : List PyFloat) : String :=
  let d := pyCounts pyFltEq values
  if d.length = 1 then
    match d with
    | (v, _) :: _ => CnumF v
    | [] => ""
  else
    let sortedItems := pySorted ltFltKey d
    let textValues := (sortedItems.take MAX_VALUES_TO_SHOW).map
      (fun p => Ccnt p.2 ++ "×" ++ CnumF p.1)
    let otherC := ((sortedItems.drop MAX_VALUES_TO_SHOW).map (fun p => p.2)).sum
    if otherC = 0 then
      String.intercalate ", " textValues
    else
      match fltMin values, fltMax values with
      | some mn, some mx =>
        Ccnt d.length ++ "←|" ++ CnumF mn ++ "…" ++ CnumF mx ++ "|: " ++
          String.intercalate ", " (textValues ++ [Ccnt otherC ++ "×…"])
      | _, _ => ""

/-- The "count descending, then value ascending" order claimed for the
rendered float entries, reading "value ascending" as strictly-less-or-equal
under Python's float `<`. -/
def pairRF (p q : PyFloat × Nat) : Prop :=
  q.2 < p.2 ∨ (p.2 = q.2 ∧ (pyFltLt p.1 q.1 = true ∨ p.1 = q.1))

instance : DecidableRel pairRF := fun p q => by
  unfold pairRF; infer_instance

/-- A decoded JSON value, as produced by `json.loads` line by line: dict,
list, int, float, str, bool or None.  Dicts are association lists in
insertion order with distinct keys (a decoder guarantee none of the
theorems rely on). -/
inductive Value where
  | dict (entries : List (String × Value))
  | arr (elems : List Value)
  | int (n : Int)
  | float (f : PyFloat)
  | str (s : String)
  | bool (b : Bool)
  | null

/-- `type(v).__name__`, the dispatch key of `ValueAggregator.AGGREGATORS`. -/
def Value.typeName : Value → String
  | .dict _ => "dict"
  | .arr _ => "list"
  | .int _ => "int"
  | .float _ => "float"
  | .str _ => "str"
  | .bool _ => "bool"
  | .null => "NoneType"

/-- The state of one aggregator.  A `ValueAggregator` is its `by_type` dict:
a list of `(type name, cnt, sub-aggregator)` entries in insertion order.
`dictA` holds `DictAggregator.keys` (key to `ValueAggregator`, insertion
order) and the key-count range; `arrA` holds the single pooled element
`ValueAggregator` and the length range; `intA`/`strA` hold the value lists;
`boolA` holds the true/false counters. -/
inductive Agg where
  | dictA (keys : List (String × List (String × Nat × Agg))) (minLen maxLen : Option Nat)
  | arrA (items : List (String × Nat × Agg)) (minLen maxLen : Option Nat)
  | intA (values : List Int)
  | fltA (values : List PyFloat)
  | strA (values : List String)
  | boolA (trueCnt falseCnt : Nat)
  | nullA

/-- A `ValueAggregator`: its `by_type` mapping. -/
abbrev VA := List (String × Nat × Agg)

/-- `ValueAggregator.AGGREGATORS[tn]()`: a fresh accumulator for the given
type name.  Other keys raise `KeyError`,
which is unreachable because `Value.typeName` only produces table keys. -/
def AGGREGATORS (tn : String) : Agg :=
  if tn = "dict" then .dictA [] none none
  else if tn = "list" then .arrA [] none none
  else if tn = "int" then .intA []
  else if tn = "float" then .fltA []
  else if tn = "str" then .strA []
  else if tn = "bool" then .boolA 0 0
  else .nullA

/-- The `min_len` update of `DictAggregator.add` / `ArrayAggregator.add`:
`l` when unset or smaller, the old value otherwise. -/
def minUpdate (cur : Option Nat) (l : Nat) : Option Nat :=
  match cur with
  | none => some l
  | some m => if l < m then some l else some m

/-- The `max_len` update of `DictAggregator.add` / `ArrayAggregator.add`. -/
def maxUpdate (cur : Option Nat) (l : Nat) : Option Nat :=
  match cur with
  | none => some l
  | some m => if m < l then some l else some m

mutual

/-- `ValueAggregator.add(v)`: route `v` to the sub-aggregator of its type
name, creating it on first occurrence, and increment that entry's `cnt`. -/
def vaAdd (bt : VA) (v : Value) : VA := btUpdate bt v
termination_by (sizeOf v, 2, 0)

/-- The body of `ValueAggregator.add`: look up `type(v).__name__` in the
`by_type` dict; a hit updates the entry in place (`cnt + 1`, value added), a
miss appends a fresh entry with `cnt = 1` at the end, which is where CPython
dict insertion puts a new key. -/
def btUpdate : VA → Value → VA
  | [], v => [(v.typeName, 1, aggAdd (AGGREGATORS v.typeName) v)]
  | (tn, c, a) :: rest, v =>
    if tn = v.typeName then (tn, c + 1, aggAdd a v) :: rest
    else (tn, c, a) :: btUpdate rest v
termination_by bt v => (sizeOf v, 1, sizeOf bt)

/-- The typed `add` methods.  The catch-all final case is the `assert` of
each method firing on a value of the wrong runtime type; it is unreachable
through `vaAdd`, which dispatches by type name. -/
def aggAdd : Agg → Value → Agg
  | .dictA keys mn mx, .dict obj =>
    .dictA (dictEntriesAdd keys obj) (minUpdate mn obj.length) (maxUpdate mx obj.length)
  | .arrA items mn mx, .arr elems =>
    .arrA (vaAddList items elems) (minUpdate mn elems.length) (maxUpdate mx elems.length)
  | .intA vs, .int n => .intA (vs ++ [n])
  | .fltA vs, .float f => .fltA (vs ++ [f])
  | .strA vs, .str s => .strA (vs ++ [s])
  | .boolA t f, .bool b => if b then .boolA (t + 1) f else .boolA t (f + 1)
  | .nullA, .null => .nullA
  | a, _ => a
termination_by a v => (sizeOf v, 0, 0)

/-- The loop of `DictAggregator.add`: feed each `(key, value)` pair to the
per-key `ValueAggregator`. -/
def dictEntriesAdd : List (String × VA) → List (String × Value) → List (String × VA)
  | keys, [] => keys
  | keys, (k, v) :: rest => dictEntriesAdd (dictKeyAdd keys k v) rest
termination_by keys entries => (sizeOf entries, 0, 0)

/-- `self.keys[k].add(v)` on the `defaultdict`: a known key is updated in
place, an unknown key appends a fresh `ValueAggregator` at the end. -/
def dictKeyAdd : List (String × VA) → String → Value → List (String × VA)
  | [], k, v => [(k, vaAdd [] v)]
  | (k', bt) :: rest, k, v =>
    if k' = k then (k', vaAdd bt v) :: rest
    else (k', bt) :: dictKeyAdd rest k v
termination_by keys k v => (sizeOf v, 3, sizeOf keys)

/-- The loop of `ArrayAggregator.add`: feed every element, in array order,
to the single pooled element `ValueAggregator`. -/
def vaAddList (bt : VA) : List Value → VA
  | [] => bt
  | v :: rest => vaAddList (vaAdd bt v) rest
termination_by vs => (sizeOf vs, 0, 0)

end

/-- The root aggregator built by `main`: one `ValueAggregator` fed every
decoded input value in order. -/
def rootAgg (vs : List Value) : VA := vs.foldl vaAdd []

/-- The type-name keys of a `by_type` dict, in insertion order. -/
def byTypeKeys (bt : VA) : List String := bt.map (fun e => e.1)

/-- The sum of the per-type `cnt` counters of a `ValueAggregator`: its total
number of `add` calls. -/
def vaTotalCnt (bt : VA) : Nat := (bt.map (fun e => e.2.1)).sum

/-- The pooled element aggregator of an `ArrayAggregator`. -/
def arrItems : Agg → VA
  | .arrA it _ _ => it
  | _ => []

/-- The `min_len` field of an `ArrayAggregator`. -/
def arrMinLen : Agg → Option Nat
  | .arrA _ mn _ => mn
  | _ => none

/-- The `max_len` field of an `ArrayAggregator`. -/
def arrMaxLen : Agg → Option Nat
  | .arrA _ _ mx => mx
  | _ => none

/-- The `min_len` field of a `DictAggregator`. -/
def dictMinLen : Agg → Option Nat
  | .dictA _ mn _ => mn
  | _ => none

/-- The `max_len` field of a `DictAggregator`. -/
def dictMaxLen : Agg → Option Nat
  | .dictA _ _ mx => mx
  | _ => none

/-- A fresh `ArrayAggregator` fed a sequence of arrays. -/
def arrRun (arrs : List (List Value)) : Agg :=
  arrs.foldl (fun a es => aggAdd a (.arr es)) (AGGREGATORS "list")

/-- A fresh `DictAggregator` fed a sequence of maps. -/
def dictRun (objs : List (List (String × Value))) : Agg :=
  objs.foldl (fun a o => aggAdd a (.dict o)) (AGGREGATORS "dict")

/-- `TYPE_NAME` of each aggregator class. -/
def aggTypeName : Agg → String
  | .dictA _ _ _ => "map"
  | .arrA _ _ _ => "array"
  | .intA _ => "int"
  | .fltA _ => "float"
  | .strA _ => "str"
  | .boolA _ _ => "bool"
  | .nullA => "null"

/-- The `"<min>"` or `"<min>…<max>"` counter part shared by
`DictAggregator.__str__` and `ArrayAggregator.__str__`. -/
def rangeCnt (mn mx : Option Nat) : String :=
  if mn = mx then CcntO mn else CcntO mn ++ "…" ++ CcntO mx

/-- The `__str__` method of each typed aggregator. -/
def aggStr : Agg → String
  | .dictA _ mn mx => rangeCnt mn mx ++ " keys"
  | .arrA _ mn mx => rangeCnt mn mx ++ " items"
  | .intA vs => intAggStr vs
  | .fltA vs => fltAggStr vs
  | .strA vs => strAggStr vs
  | .boolA t f =>
    if f = 0 then Cbool true
    else if t = 0 then Cbool false
    else Ccnt f ++ "×" ++ Cbool false ++ ", " ++ Ccnt t ++ "×" ++ Cbool true
  | .nullA => "null"

/-- `ValueAggregator.__str__`.  Its `sorted` call uses the key
`lambda x: (x[1], x[0])` where `x` is a `(type name, aggregator)` item, so
the sort key is the aggregator *object*, not its `cnt`: with two or more
registered kinds the tuple comparison falls through to comparing two
distinct aggregator instances, and CPython raises `TypeError` because no
aggregator class defines an order.  `none` models that exception; with zero
or one entries `sorted` never compares and the join succeeds. -/
def vaStr (bt : VA) : Option String :=
  match bt with
  | [] => some ""
  | [(_, c, a)] => some (Ccnt c ++ "×" ++ Ctype (aggTypeName a) ++ "(" ++ aggStr a ++ ")")
  | _ :: _ :: _ => none

/-- Order on the per-key blocks of `DictAggregator.print`, mirroring
`sorted(self.keys.items())`: the dict keys are distinct, so the tuple sort
never reaches the `ValueAggregator` second component and orders purely by
key. -/
def keyBlockLe {β : Type} (a b : String × β) : Prop := sLe a.1 b.1 = true

instance {β : Type} : DecidableRel (keyBlockLe (β := β)) := fun a b => by
  unfold keyBlockLe; infer_instance

/-- Concatenate printed blocks in order, stopping at the first block whose
rendering raised (the exception aborts the whole program, keeping the lines
already printed). -/
def concatBlocks : List (List String × Bool) → List String × Bool
  | [] => ([], true)
  | b :: rest =>
    if b.2 then
      let tail := concatBlocks rest
      (b.1 ++ tail.1, tail.2)
    else b

mutual

/-- `ValueAggregator.print(prefix)`: ask each sub-aggregator to print
itself, in `by_type` insertion order.  The pair is (lines written, whether
no exception was raised). -/
def vaPrint : VA → String → List String × Bool
  | [], _ => ([], true)
  | (_, _, a) :: rest, pfx =>
    let b := aggPrint a pfx
    if b.2 then
      let tail := vaPrint rest pfx
      (b.1 ++ tail.1, tail.2)
    else b
termination_by bt _ => sizeOf bt

/-- The `print` method of each typed aggregator.  `DictAggregator.print`
iterates its keys in sorted order, printing
`"<prefix>.<key>: <str(child)>"` then recursing; `ArrayAggregator.print`
prints `"<prefix>[]: <str(items)>"` then recurses; leaves print nothing.
In both, the line's f-string renders a `ValueAggregator`, which raises when
that aggregator holds two or more kinds (see `vaStr`); the line is then not
printed and the walk aborts. -/
def aggPrint : Agg → String → List String × Bool
  | .dictA keys _ _, pfx => concatBlocks ((List.insertionSort keyBlockLe (dictBlocks keys pfx)).map (fun b => b.2))
  | .arrA items _ _, pfx =>
    match vaStr items with
    | none => ([], false)
    | some s =>
      let sub := vaPrint items (pfx ++ "[]")
      ((pfx ++ "[]: " ++ s) :: sub.1, sub.2)
  | _, _ => ([], true)
termination_by a _ => sizeOf a

/-- The per-key output blocks of `DictAggregator.print`, each tagged with
its key for sorting. -/
def dictBlocks : List (String × VA) → String → List (String × (List String × Bool))
  | [], _ => []
  | (k, bt) :: rest, pfx =>
    (k,
      match vaStr bt with
      | none => ([], false)
      | some s =>
        let sub := vaPrint bt (pfx ++ "." ++ Ckey k)
        ((pfx ++ "." ++ Ckey k ++ ": " ++ s) :: sub.1, sub.2)) :: dictBlocks rest pfx
termination_by keys _ => sizeOf keys

end

/-- The `main` pipeline after decoding: feed every value into one root
`ValueAggregator`, then call `v.print()` (default prefix `""`).  The output
is the list of printed lines and whether the run finished without raising.
Note that `main` never prints `str(v)` of the root itself. -/
def mainOutput (vs : List Value) : List String × Bool :=
  vaPrint (vs.foldl vaAdd []) ""

/-- The effect of one `ValueAggregator.add` on the ordered key set of its
`by_type` dict: a known type name leaves the keys unchanged, a new one is
appended at the end. -/
def insKeys (ks : List String) (tn : String) : List String :=
  if tn ∈ ks then ks else ks ++ [tn]

/-- Whether a value is a scalar (no structural recursion on `add`). -/
def isScalar : Value → Bool
  | .dict _ => false
  | .arr _ => false
  | .int _ => true
  | .float _ => true
  | .str _ => true
  | .bool _ => true
  | .null => true

/-- Whether an aggregator is a leaf accumulator, whose `print` emits
nothing. -/
def isLeafAgg : Agg → Bool
  | .dictA _ _ _ => false
  | .arrA _ _ _ => false
  | .intA _ => true
  | .fltA _ => true
  | .strA _ => true
  | .boolA _ _ => true
  | .nullA => true

/-- The output shape the specification claims for `main`: the root
aggregator's own rendering as a first line, followed by the `printTree`
lines.  (`main` in the source does not actually print such a first line;
this definition follows the specification's words, for comparison.) -/
def specClaimedOutput (vs : List Value) : Option (List String) :=
  match vaStr (rootAgg vs) with
  | none => none
  | some r => some (r :: (vaPrint (rootAgg vs) "").1)

/-- A total preorder packaged for the comparison functions the embedding
sorts with. -/
structure LeOrder {α : Type} (le : α → α → Bool) : Prop where
  total : ∀ a b, le a b = true ∨ le b a = true
  le_trans : ∀ a b c, le a b = true → le b c = true → le a c = true
  antisymm : ∀ a b, le a b = true → le b a = true → a = b

lemma lexLe_total : ∀ as bs, lexLe as bs = true ∨ lexLe bs as = true := by
  intro as
  induction as with
  | nil => intro bs; left; simp [lexLe]
  | cons a as ih =>
    intro bs
    cases bs with
    | nil => right; simp [lexLe]
    | cons b bs =>
      rcases lt_trichotomy a b with h | h | h
      · left; simp [lexLe, h]
      · subst h
        rcases ih bs with h2 | h2
        · left; simp [lexLe, lt_irrefl, h2]
        · right; simp [lexLe, lt_irrefl, h2]
      · right; simp [lexLe, h]

lemma lexLe_trans : ∀ as bs cs, lexLe as bs = true → lexLe bs cs = true →
    lexLe as cs = true := by
  intro as
  induction as with
  | nil => intro bs cs h1 h2; simp [lexLe]
  | cons a as ih =>
    intro bs cs h1 h2
    cases bs with
    | nil => simp [lexLe] at h1
    | cons b bs =>
      cases cs with
      | nil => simp [lexLe] at h2
      | cons c cs =>
        rcases lt_trichotomy a b with hab | hab | hab
        · rcases lt_trichotomy b c with hbc | hbc | hbc
          · simp [lexLe, lt_trans hab hbc]
          · subst hbc; simp [lexLe, hab]
          · simp [lexLe, lt_asymm hbc, hbc] at h2
        · subst hab
          rcases lt_trichotomy a c with hbc | hbc | hbc
          · simp [lexLe, hbc]
          · subst hbc
            simp [lexLe, lt_irrefl] at h1 h2 ⊢
            exact ih bs cs h1 h2
          · simp [lexLe, lt_asymm hbc, hbc] at h2
        · simp [lexLe, lt_asymm hab, hab] at h1

lemma lexLe_antisymm : ∀ as bs, lexLe as bs = true → lexLe bs as = true → as = bs := by
  intro as
  induction as with
  | nil =>
    intro bs h1 h2
    cases bs with
    | nil => rfl
    | cons b bs => simp [lexLe] at h2
  | cons a as ih =>
    intro bs h1 h2
    cases bs with
    | nil => simp [lexLe] at h1
    | cons b bs =>
      rcases lt_trichotomy a b with h | h | h
      · simp [lexLe, lt_asymm h, h] at h2
      · subst h
        simp [lexLe, lt_irrefl] at h1 h2
        rw [ih bs h1 h2]
      · simp [lexLe, lt_asymm h, h] at h1

/-- Python string comparison is a linear order. -/
lemma sLe_order : LeOrder sLe where
  total := fun a b => lexLe_total a.data b.data
  le_trans := fun a b c h1 h2 => lexLe_trans a.data b.data c.data h1 h2
  antisymm := fun a b h1 h2 => by
    cases a; cases b
    exact congrArg String.mk (lexLe_antisymm _ _ h1 h2)

/-- Python integer comparison is a linear order. -/
lemma iLe_order : LeOrder iLe where
  total := fun a b => by simp [iLe]; omega
  le_trans := fun a b c h1 h2 => by simp [iLe] at h1 h2 ⊢; omega
  antisymm := fun a b h1 h2 => by simp [iLe] at h1 h2; omega

lemma pairR_total {α : Type} {le : α → α → Bool} (h : LeOrder le) :
    ∀ p q : α × Nat, pairR le p q ∨ pairR le q p := by
  intro p q
  rcases Nat.lt_trichotomy p.2 q.2 with hn | hn | hn
  · right; exact Or.inl hn
  · rcases h.total p.1 q.1 with hle | hle
    · left; exact Or.inr ⟨hn, hle⟩
    · right; exact Or.inr ⟨hn.symm, hle⟩
  · left; exact Or.inl hn

lemma pairR_trans {α : Type} {le : α → α → Bool} (h : LeOrder le) :
    ∀ p q r : α × Nat, pairR le p q → pairR le q r → pairR le p r := by
  intro p q r h1 h2
  rcases h1 with h1 | ⟨h1e, h1l⟩ <;> rcases h2 with h2 | ⟨h2e, h2l⟩
  · exact Or.inl (lt_trans h2 h1)
  · exact Or.inl (h2e ▸ h1)
  · exact Or.inl (h1e ▸ h2)
  · exact Or.inr ⟨h1e.trans h2e, h.le_trans _ _ _ h1l h2l⟩

lemma pairR_antisymm {α : Type} {le : α → α → Bool} (h : LeOrder le) :
    ∀ p q : α × Nat, pairR le p q → pairR le q p → p = q := by
  intro p q h1 h2
  obtain ⟨p1, p2⟩ := p
  obtain ⟨q1, q2⟩ := q
  rcases h1 with h1 | ⟨h1e, h1l⟩ <;> rcases h2 with h2 | ⟨h2e, h2l⟩
  · exact absurd h2 (by simp at h1 ⊢; omega)
  · exact absurd h1 (by simp at h2e ⊢; omega)
  · exact absurd h2 (by simp at h1e ⊢; omega)
  · have hv : p1 = q1 := h.antisymm _ _ h1l h2l
    have hn : p2 = q2 := by simpa using h1e
    rw [hv, hn]

lemma pyKeys_mem {α : Type} [DecidableEq α] (a : α) :
    ∀ l : List α, a ∈ pyKeys l ↔ a ∈ l := by
  intro l
  induction l with
  | nil => simp [pyKeys]
  | cons x xs ih =>
    by_cases h : a = x
    · subst h; simp [pyKeys]
    · simp [pyKeys, List.mem_filter, h, ih]

lemma pyKeys_nodup {α : Type} [DecidableEq α] : ∀ l : List α, (pyKeys l).Nodup := by
  intro l
  induction l with
  | nil => simp [pyKeys]
  | cons x xs ih =>
    refine List.nodup_cons.mpr ⟨?_, ih.filter _⟩
    intro hmem
    have := (List.mem_filter.mp hmem).2
    simp at this

lemma countsList_count_pos {α : Type} [DecidableEq α] {l : List α} {p : α × Nat}
    (hp : p ∈ countsList l) : 1 ≤ p.2 := by
  obtain ⟨v, hv, rfl⟩ := List.mem_map.mp hp
  have : v ∈ l := (pyKeys_mem v l).mp hv
  simpa using List.count_pos_iff.mpr this

lemma countsList_perm {α : Type} [DecidableEq α] {l₁ l₂ : List α}
    (hp : List.Perm l₁ l₂) : List.Perm (countsList l₁) (countsList l₂) := by
  have hk : List.Perm (pyKeys l₁) (pyKeys l₂) := by
    refine (List.perm_ext_iff_of_nodup (pyKeys_nodup _) (pyKeys_nodup _)).mpr ?_
    intro a
    rw [pyKeys_mem, pyKeys_mem]
    exact hp.mem_iff
  have hf : (fun v : α => (v, l₁.count v)) = fun v => (v, l₂.count v) := by
    funext v
    rw [hp.count_eq]
  unfold countsList
  rw [hf]
  exact hk.map _

lemma sortedCounts_sorted {α : Type} [DecidableEq α] {le : α → α → Bool}
    (h : LeOrder le) (l : List α) : List.Sorted (pairR le) (sortedCounts le l) := by
  haveI : IsTotal (α × Nat) (pairR le) := ⟨pairR_total h⟩
  haveI : IsTrans (α × Nat) (pairR le) := ⟨pairR_trans h⟩
  exact List.sorted_insertionSort _ _

lemma sortedCounts_perm {α : Type} [DecidableEq α] (le : α → α → Bool) (l : List α) :
    List.Perm (sortedCounts le l) (countsList l) :=
  List.perm_insertionSort _ _

lemma sortedCounts_perm_eq {α : Type} [DecidableEq α] {le : α → α → Bool}
    (h : LeOrder le) {l₁ l₂ : List α} (hp : List.Perm l₁ l₂) :
    sortedCounts le l₁ = sortedCounts le l₂ := by
  haveI : IsAntisymm (α × Nat) (pairR le) := ⟨pairR_antisymm h⟩
  refine List.eq_of_perm_of_sorted ?_ (sortedCounts_sorted h l₁) (sortedCounts_sorted h l₂)
  exact (sortedCounts_perm le l₁).trans ((countsList_perm hp).trans (sortedCounts_perm le l₂).symm)

lemma foldMin_mem {α : Type} (le : α → α → Bool) :
    ∀ (xs : List α) (x : α), xs.foldl (fun m v => if le m v then m else v) x ∈ x :: xs := by
  intro xs
  induction xs with
  | nil => intro x; simp
  | cons v vs ih =>
    intro x
    have h := ih (if le x v then x else v)
    rcases List.mem_cons.mp h with h1 | h1
    · rw [List.foldl_cons, h1]
      by_cases hc : le x v = true <;> simp [hc]
    · simp [List.foldl_cons]
      right; right; exact h1

lemma foldMin_le {α : Type} {le : α → α → Bool} (h : LeOrder le) :
    ∀ (xs : List α) (x : α) (b : α), b ∈ x :: xs →
      le (xs.foldl (fun m v => if le m v then m else v) x) b = true := by
  intro xs
  induction xs with
  | nil =>
    intro x b hb
    simp at hb
    subst hb
    rcases h.total b b with hr | hr <;> simpa using hr
  | cons v vs ih =>
    intro x b hb
    rw [List.foldl_cons]
    by_cases hc : le x v = true
    · rw [if_pos hc]
      rcases List.mem_cons.mp hb with h1 | h1
      · rw [h1]; exact ih x x (List.mem_cons_self x vs)
      · rcases List.mem_cons.mp h1 with h2 | h2
        · subst h2
          exact h.le_trans _ _ _ (ih x x (List.mem_cons_self x vs)) hc
        · exact ih x b (List.mem_cons.mpr (Or.inr h2))
    · rw [if_neg hc]
      have hvx : le v x = true := by
        rcases h.total x v with hr | hr
        · exact absurd hr hc
        · exact hr
      rcases List.mem_cons.mp hb with h1 | h1
      · subst h1
        exact h.le_trans _ _ _ (ih v v (List.mem_cons_self v vs)) hvx
      · rcases List.mem_cons.mp h1 with h2 | h2
        · rw [h2]; exact ih v v (List.mem_cons_self v vs)
        · exact ih v b (List.mem_cons.mpr (Or.inr h2))

lemma pyMin_spec {α : Type} {le : α → α → Bool} (h : LeOrder le) {l : List α} {a : α}
    (ha : pyMin le l = some a) : a ∈ l ∧ ∀ b ∈ l, le a b = true := by
  cases l with
  | nil => simp [pyMin] at ha
  | cons x xs =>
    simp only [pyMin, Option.some.injEq] at ha
    subst ha
    exact ⟨foldMin_mem le xs x, fun b hb => foldMin_le h xs x b hb⟩

lemma pyMin_perm {α : Type} {le : α → α → Bool} (h : LeOrder le) {l₁ l₂ : List α}
    (hp : List.Perm l₁ l₂) : pyMin le l₁ = pyMin le l₂ := by
  cases l₁ with
  | nil =>
    have : l₂ = [] := by
      have hl := hp.length_eq
      cases l₂ with
      | nil => rfl
      | cons y ys => simp at hl
    rw [this]
  | cons x xs =>
    cases l₂ with
    | nil =>
      have hl := hp.length_eq
      simp at hl
    | cons y ys =>
      obtain ⟨m₁, hm₁⟩ : ∃ m, pyMin le (x :: xs) = some m := ⟨_, rfl⟩
      obtain ⟨m₂, hm₂⟩ : ∃ m, pyMin le (y :: ys) = some m := ⟨_, rfl⟩
      obtain ⟨hmem₁, hle₁⟩ := pyMin_spec h hm₁
      obtain ⟨hmem₂, hle₂⟩ := pyMin_spec h hm₂
      rw [hm₁, hm₂]
      have heq : m₁ = m₂ :=
        h.antisymm _ _ (hle₁ m₂ (hp.mem_iff.mpr hmem₂)) (hle₂ m₁ (hp.mem_iff.mp hmem₁))
      rw [heq]

/-- The flipped comparison of a total preorder. -/
lemma LeOrder.flip {α : Type} {le : α → α → Bool} (h : LeOrder le) :
    LeOrder (fun a b => le b a) where
  total := fun a b => (h.total b a)
  le_trans := fun a b c h1 h2 => h.le_trans c b a h2 h1
  antisymm := fun a b h1 h2 => h.antisymm a b h2 h1

lemma pyMax_eq_pyMin_flip {α : Type} (le : α → α → Bool) (l : List α) :
    pyMax le l = pyMin (fun a b => le b a) l := by
  cases l <;> rfl

lemma pyMax_perm {α : Type} {le : α → α → Bool} (h : LeOrder le) {l₁ l₂ : List α}
    (hp : List.Perm l₁ l₂) : pyMax le l₁ = pyMax le l₂ := by
  rw [pyMax_eq_pyMin_flip, pyMax_eq_pyMin_flip]
  exact pyMin_perm h.flip hp

lemma pyMax_spec {α : Type} {le : α → α → Bool} (h : LeOrder le) {l : List α} {a : α}
    (ha : pyMax le l = some a) : a ∈ l ∧ ∀ b ∈ l, le b a = true := by
  rw [pyMax_eq_pyMin_flip] at ha
  exact pyMin_spec h.flip ha

lemma sortedCounts_length {α : Type} [DecidableEq α] (le : α → α → Bool) (l : List α) :
    (sortedCounts le l).length = (countsList l).length :=
  (sortedCounts_perm le l).length_eq

lemma sorted_drop_sum_pos {α : Type} [DecidableEq α] (le : α → α → Bool) (l : List α)
    (hlen : MAX_VALUES_TO_SHOW < (countsList l).length) :
    0 < (((sortedCounts le l).drop MAX_VALUES_TO_SHOW).map (fun p => p.2)).sum := by
  have hdl : 0 < ((sortedCounts le l).drop MAX_VALUES_TO_SHOW).length := by
    rw [List.length_drop, sortedCounts_length]
    omega
  cases hd : (sortedCounts le l).drop MAX_VALUES_TO_SHOW with
  | nil => rw [hd] at hdl; simp at hdl
  | cons p tail =>
    have hp : p ∈ countsList l := by
      have h1 : p ∈ (sortedCounts le l).drop MAX_VALUES_TO_SHOW := by
        rw [hd]; exact List.mem_cons_self p tail
      exact (sortedCounts_perm le l).mem_iff.mp (List.drop_subset _ _ h1)
    have := countsList_count_pos hp
    simp [hd]
    omega

lemma sorted_drop_sum_zero {α : Type} [DecidableEq α] (le : α → α → Bool) (l : List α)
    (hlen : (countsList l).length ≤ MAX_VALUES_TO_SHOW) :
    (((sortedCounts le l).drop MAX_VALUES_TO_SHOW).map (fun p => p.2)).sum = 0 := by
  have : (sortedCounts le l).drop MAX_VALUES_TO_SHOW = [] := by
    apply List.drop_eq_nil_of_le
    rw [sortedCounts_length]
    exact hlen
  rw [this]
  rfl

lemma distRender_one {α : Type} [DecidableEq α] (le : α → α → Bool) (fmt : α → String)
    (l : List α) (v : α) (c : Nat) (h : countsList l = [(v, c)]) :
    distRender le fmt l = fmt v := by
  simp [distRender, h]

lemma distRender_few {α : Type} [DecidableEq α] (le : α → α → Bool) (fmt : α → String)
    (l : List α) (h2 : 2 ≤ (countsList l).length)
    (h3 : (countsList l).length ≤ MAX_VALUES_TO_SHOW) :
    distRender le fmt l =
      String.intercalate ", " (((sortedCounts le l).take MAX_VALUES_TO_SHOW).map (entryFmt fmt)) := by
  have h1 : ¬ ((countsList l).length = 1) := by omega
  simp only [distRender]
  rw [if_neg h1]
  rw [show (List.insertionSort (pairR le) (countsList l)) = sortedCounts le l from rfl]
  rw [if_pos (sorted_drop_sum_zero le l h3)]

lemma distRender_many {α : Type} [DecidableEq α] (le : α → α → Bool) (fmt : α → String)
    (l : List α) (h3 : MAX_VALUES_TO_SHOW < (countsList l).length)
    (mn mx : α) (hmn : pyMin le l = some mn) (hmx : pyMax le l = some mx) :
    distRender le fmt l =
      Ccnt (countsList l).length ++ "←|" ++ fmt mn ++ "…" ++ fmt mx ++ "|: " ++
        String.intercalate ", "
          (((sortedCounts le l).take MAX_VALUES_TO_SHOW).map (entryFmt fmt) ++
            [Ccnt (((sortedCounts le l).drop MAX_VALUES_TO_SHOW).map (fun p => p.2)).sum ++ "×…"]) := by
  have hM : MAX_VALUES_TO_SHOW = 3 := rfl
  have h1 : ¬ ((countsList l).length = 1) := by rw [hM] at h3; omega
  have hnz : ¬ ((((sortedCounts le l).drop MAX_VALUES_TO_SHOW).map (fun p => p.2)).sum = 0) := by
    have := sorted_drop_sum_pos le l h3
    omega
  simp only [distRender]
  rw [if_neg h1]
  rw [show (List.insertionSort (pairR le) (countsList l)) = sortedCounts le l from rfl]
  rw [if_neg hnz, hmn, hmx]

lemma distRender_perm {α : Type} [DecidableEq α] {le : α → α → Bool} (h : LeOrder le)
    (fmt : α → String) {l₁ l₂ : List α} (hp : List.Perm l₁ l₂) :
    distRender le fmt l₁ = distRender le fmt l₂ := by
  have hc := countsList_perm hp
  have hlen : (countsList l₁).length = (countsList l₂).length := hc.length_eq
  by_cases h1 : (countsList l₁).length = 1
  · obtain ⟨p, hp1⟩ := List.length_eq_one.mp h1
    have hp2 : countsList l₂ = [p] := List.perm_singleton.mp (hp1 ▸ hc).symm
    obtain ⟨v, c⟩ := p
    rw [distRender_one le fmt l₁ v c hp1, distRender_one le fmt l₂ v c hp2]
  · have h2 : ¬ ((countsList l₂).length = 1) := by omega
    have hsort : sortedCounts le l₁ = sortedCounts le l₂ := sortedCounts_perm_eq h hp
    have hmin : pyMin le l₁ = pyMin le l₂ := pyMin_perm h hp
    have hmax : pyMax le l₁ = pyMax le l₂ := pyMax_perm h hp
    simp only [distRender]
    rw [if_neg h1, if_neg h2]
    rw [show (List.insertionSort (pairR le) (countsList l₁)) = sortedCounts le l₁ from rfl]
    rw [show (List.insertionSort (pairR le) (countsList l₂)) = sortedCounts le l₂ from rfl]
    rw [hsort, hmin, hmax, hlen]

lemma nodup_sum_filter {α : Type} [DecidableEq α] (f : α → Nat) (x : α) :
    ∀ (k : List α), k.Nodup →
      ((k.filter (fun a => decide (a ≠ x))).map f).sum + (if x ∈ k then f x else 0) =
        (k.map f).sum := by
  intro k
  induction k with
  | nil => intro _; simp
  | cons y t ih =>
    intro hnd
    obtain ⟨hy, ht⟩ := List.nodup_cons.mp hnd
    by_cases hxy : y = x
    · have hxt : x ∉ t := hxy ▸ hy
      have hfil : t.filter (fun a => decide (a ≠ x)) = t := by
        refine List.filter_eq_self.mpr ?_
        intro a ha
        simp
        intro hax
        exact absurd (hax ▸ ha) hxt
      have hxm : x ∈ y :: t := by rw [hxy]; exact List.mem_cons_self x t
      have hyd : (decide (y ≠ x)) = false := by simp [hxy]
      rw [List.filter_cons, hyd]
      simp only [Bool.false_eq_true, if_false, hfil]
      rw [if_pos hxm]
      simp only [List.map_cons, List.sum_cons]
      rw [hxy]
      omega
    · have := ih ht
      have hyd : (decide (y ≠ x)) = true := by simp [hxy]
      rw [List.filter_cons, hyd]
      have hmem : (x ∈ y :: t) ↔ (x ∈ t) := by
        rw [List.mem_cons]
        constructor
        · intro h
          rcases h with h | h
          · exact absurd h.symm hxy
          · exact h
        · exact Or.inr
      simp only [if_true, List.map_cons, List.sum_cons]
      by_cases hx : x ∈ t
      · rw [if_pos (hmem.mpr hx)]
        rw [if_pos hx] at this
        omega
      · rw [if_neg (fun hc => hx (hmem.mp hc))]
        rw [if_neg hx] at this
        omega

lemma pyKeys_count_sum {α : Type} [DecidableEq α] :
    ∀ l : List α, ((pyKeys l).map (fun v => l.count v)).sum = l.length := by
  intro l
  induction l with
  | nil => simp [pyKeys]
  | cons x xs ih =>
    simp only [pyKeys, List.map_cons, List.sum_cons]
    have hcx : (x :: xs).count x = xs.count x + 1 := by simp [List.count_cons]
    have hmap : ((pyKeys xs).filter (fun a => decide (a ≠ x))).map (fun v => (x :: xs).count v) =
        ((pyKeys xs).filter (fun a => decide (a ≠ x))).map (fun v => xs.count v) := by
      refine List.map_congr_left ?_
      intro a ha
      have : a ≠ x := by
        have := (List.mem_filter.mp ha).2
        simpa using this
      simp [List.count_cons, this]
    rw [hcx, hmap]
    have hsum := nodup_sum_filter (fun v => xs.count v) x (pyKeys xs) (pyKeys_nodup xs)
    have hbeta : ((fun v => xs.count v) x) = xs.count x := rfl
    rw [hbeta] at hsum
    by_cases hx : x ∈ xs
    · have hxk : x ∈ pyKeys xs := (pyKeys_mem x xs).mpr hx
      rw [if_pos hxk] at hsum
      simp only [List.length_cons]
      omega
    · have hxk : x ∉ pyKeys xs := fun hc => hx ((pyKeys_mem x xs).mp hc)
      rw [if_neg hxk] at hsum
      have hc0 : xs.count x = 0 := List.count_eq_zero_of_not_mem hx
      simp only [List.length_cons]
      omega

lemma sumCounts_eq_length {α : Type} [DecidableEq α] (l : List α) :
    sumCounts l = l.length := by
  unfold sumCounts countsList
  rw [List.map_map]
  have : ((fun p : α × Nat => p.2) ∘ fun v => (v, l.count v)) = fun v => l.count v := rfl
  rw [this]
  exact pyKeys_count_sum l

lemma leafAddAll_eq {α : Type} : ∀ calls : List α, leafAddAll calls = calls := by
  have haux : ∀ (calls acc : List α), calls.foldl leafAdd acc = acc ++ calls := by
    intro calls
    induction calls with
    | nil => intro acc; simp
    | cons c cs ih =>
      intro acc
      rw [List.foldl_cons]
      rw [ih]
      simp [leafAdd]
  intro calls
  unfold leafAddAll
  rw [haux]
  simp

lemma vaAdd_def (bt : VA) (v : Value) : vaAdd bt v = btUpdate bt v := by
  simp [vaAdd]

lemma vaTotalCnt_btUpdate : ∀ (bt : VA) (v : Value),
    vaTotalCnt (btUpdate bt v) = vaTotalCnt bt + 1 := by
  intro bt v
  induction bt with
  | nil => simp [btUpdate, vaTotalCnt]
  | cons e rest ih =>
    obtain ⟨tn, c, a⟩ := e
    by_cases h : tn = v.typeName
    · simp only [btUpdate, if_pos h, vaTotalCnt, List.map_cons, List.sum_cons]
      omega
    · simp only [btUpdate, if_neg h, vaTotalCnt, List.map_cons, List.sum_cons] at ih ⊢
      omega

lemma vaTotalCnt_foldl : ∀ (vs : List Value) (bt : VA),
    vaTotalCnt (vs.foldl vaAdd bt) = vaTotalCnt bt + vs.length := by
  intro vs
  induction vs with
  | nil => intro bt; simp
  | cons v rest ih =>
    intro bt
    rw [List.foldl_cons, ih, vaAdd_def, vaTotalCnt_btUpdate]
    simp only [List.length_cons]
    omega

lemma vaAddList_eq_foldl : ∀ (es : List Value) (bt : VA),
    vaAddList bt es = es.foldl vaAdd bt := by
  intro es
  induction es with
  | nil => intro bt; simp [vaAddList]
  | cons v rest ih =>
    intro bt
    simp only [vaAddList, List.foldl_cons]
    exact ih _

lemma aggAdd_arr (it : VA) (mn mx : Option Nat) (es : List Value) :
    aggAdd (.arrA it mn mx) (.arr es) =
      .arrA (vaAddList it es) (minUpdate mn es.length) (maxUpdate mx es.length) := by
  simp [aggAdd]

lemma aggAdd_dict (ks : List (String × VA)) (mn mx : Option Nat) (o : List (String × Value)) :
    aggAdd (.dictA ks mn mx) (.dict o) =
      .dictA (dictEntriesAdd ks o) (minUpdate mn o.length) (maxUpdate mx o.length) := by
  simp [aggAdd]

lemma arrFold_items : ∀ (arrs : List (List Value)) (it : VA) (mn mx : Option Nat),
    arrItems (arrs.foldl (fun a es => aggAdd a (.arr es)) (.arrA it mn mx)) =
      (arrs.flatten).foldl vaAdd it := by
  intro arrs
  induction arrs with
  | nil => intro it mn mx; simp [arrItems]
  | cons es rest ih =>
    intro it mn mx
    rw [List.foldl_cons]
    simp only [aggAdd_arr]
    rw [ih, vaAddList_eq_foldl]
    rw [List.flatten_cons, List.foldl_append]

lemma dictFold_minmax : ∀ (objs : List (List (String × Value))) (ks : List (String × VA))
    (m M : Nat), m ≤ M →
    ∃ ks2 m2 M2,
      objs.foldl (fun a o => aggAdd a (.dict o)) (.dictA ks (some m) (some M)) =
        .dictA ks2 (some m2) (some M2) ∧ m2 ≤ M2 := by
  intro objs
  induction objs with
  | nil => intro ks m M h; exact ⟨ks, m, M, rfl, h⟩
  | cons o rest ih =>
    intro ks m M h
    rw [List.foldl_cons, aggAdd_dict]
    by_cases h1 : o.length < m <;> by_cases h2 : M < o.length
    · simp only [minUpdate, maxUpdate, if_pos h1, if_pos h2]
      exact ih _ _ _ (le_refl _)
    · simp only [minUpdate, maxUpdate, if_pos h1, if_neg h2]
      exact ih _ _ _ (by omega)
    · simp only [minUpdate, maxUpdate, if_neg h1, if_pos h2]
      exact ih _ _ _ (by omega)
    · simp only [minUpdate, maxUpdate, if_neg h1, if_neg h2]
      exact ih _ _ _ h

lemma byTypeKeys_btUpdate : ∀ (bt : VA) (v : Value),
    byTypeKeys (btUpdate bt v) = insKeys (byTypeKeys bt) v.typeName := by
  intro bt v
  induction bt with
  | nil => simp [btUpdate, byTypeKeys, insKeys]
  | cons e rest ih =>
    obtain ⟨tn, c, a⟩ := e
    by_cases h : tn = v.typeName
    · simp only [btUpdate, if_pos h, byTypeKeys, List.map_cons, insKeys]
      rw [if_pos (by rw [h]; exact List.mem_cons_self _ _)]
    · simp only [btUpdate, if_neg h, byTypeKeys, List.map_cons] at ih ⊢
      rw [ih]
      simp only [insKeys]
      have hmem : (v.typeName ∈ tn :: (rest.map (fun e => e.1))) ↔
          (v.typeName ∈ rest.map (fun e => e.1)) := by
        rw [List.mem_cons]
        constructor
        · intro hc
          rcases hc with hc | hc
          · exact absurd hc.symm h
          · exact hc
        · exact Or.inr
      by_cases hm : v.typeName ∈ rest.map (fun e => e.1)
      · rw [if_pos hm, if_pos (hmem.mpr hm)]
      · rw [if_neg hm, if_neg (fun hc => hm (hmem.mp hc))]
        simp

lemma byTypeKeys_foldl : ∀ (vs : List Value) (bt : VA),
    byTypeKeys (vs.foldl vaAdd bt) = (vs.map Value.typeName).foldl insKeys (byTypeKeys bt) := by
  intro vs
  induction vs with
  | nil => intro bt; simp
  | cons v rest ih =>
    intro bt
    rw [List.foldl_cons, List.map_cons, List.foldl_cons, ih, vaAdd_def, byTypeKeys_btUpdate]

lemma foldl_insKeys : ∀ (l : List String) (acc : List String),
    l.foldl insKeys acc = acc ++ (pyKeys l).filter (fun a => decide (a ∉ acc)) := by
  intro l
  induction l with
  | nil => intro acc; simp [pyKeys]
  | cons x xs ih =>
    intro acc
    rw [List.foldl_cons, ih]
    by_cases hx : x ∈ acc
    · have h1 : insKeys acc x = acc := by simp [insKeys, hx]
      rw [h1]
      congr 1
      simp only [pyKeys, List.filter_cons]
      have hd : (decide (x ∉ acc)) = false := by simp [hx]
      rw [hd]
      simp only [Bool.false_eq_true, if_false]
      rw [List.filter_filter]
      refine List.filter_congr ?_
      intro a ha
      by_cases hax : a = x
      · subst hax; simp [hx]
      · simp [hax]
    · have h1 : insKeys acc x = acc ++ [x] := by simp [insKeys, hx]
      rw [h1]
      simp only [pyKeys, List.filter_cons]
      have hd : (decide (x ∉ acc)) = true := by simp [hx]
      rw [hd]
      simp only [if_true]
      rw [List.filter_filter, List.append_assoc, List.singleton_append]
      congr 2
      refine List.filter_congr ?_
      intro a ha
      by_cases h1 : a ∈ acc <;> by_cases h2 : a = x <;> simp [h1, h2]

lemma rootAgg_keys : ∀ vs : List Value,
    byTypeKeys (rootAgg vs) = pyKeys (vs.map Value.typeName) := by
  intro vs
  unfold rootAgg
  rw [byTypeKeys_foldl]
  have hb : byTypeKeys ([] : VA) = [] := rfl
  rw [hb, foldl_insKeys]
  simp only [List.nil_append]
  refine List.filter_eq_self.mpr ?_
  intro a ha
  simp

lemma aggAdd_leaf (a : Agg) (v : Value) (h : isLeafAgg a = true) :
    isLeafAgg (aggAdd a v) = true := by
  cases a <;> cases v <;>
    first
      | (simp [isLeafAgg] at h; done)
      | (rw [aggAdd.eq_def]; rfl)
      | (rw [aggAdd.eq_def]; rename_i b; cases b <;> rfl)

lemma AGGREGATORS_scalar_leaf (v : Value) (h : isScalar v = true) :
    isLeafAgg (AGGREGATORS v.typeName) = true := by
  cases v <;> first | rfl | (simp [isScalar] at h)

lemma btUpdate_leaf (v : Value) (hv : isScalar v = true) : ∀ bt : VA,
    (∀ e ∈ bt, isLeafAgg e.2.2 = true) → ∀ e ∈ btUpdate bt v, isLeafAgg e.2.2 = true := by
  intro bt
  induction bt with
  | nil =>
    intro _ e he
    simp only [btUpdate, List.mem_singleton] at he
    rw [he]
    exact aggAdd_leaf _ _ (AGGREGATORS_scalar_leaf v hv)
  | cons f rest ih =>
    obtain ⟨tn, c, a⟩ := f
    intro hall e he
    have ha : isLeafAgg a = true := hall _ (List.mem_cons_self _ _)
    have hrest : ∀ e ∈ rest, isLeafAgg e.2.2 = true :=
      fun e he => hall e (List.mem_cons_of_mem _ he)
    by_cases h : tn = v.typeName
    · simp only [btUpdate, if_pos h] at he
      rcases List.mem_cons.mp he with h1 | h1
      · rw [h1]
        exact aggAdd_leaf a v ha
      · exact hrest e h1
    · simp only [btUpdate, if_neg h] at he
      rcases List.mem_cons.mp he with h1 | h1
      · rw [h1]; exact ha
      · exact ih hrest e h1

lemma rootAgg_leaf : ∀ (vs : List Value), (∀ v ∈ vs, isScalar v = true) →
    ∀ e ∈ rootAgg vs, isLeafAgg e.2.2 = true := by
  have haux : ∀ (vs : List Value) (bt : VA), (∀ v ∈ vs, isScalar v = true) →
      (∀ e ∈ bt, isLeafAgg e.2.2 = true) → ∀ e ∈ vs.foldl vaAdd bt, isLeafAgg e.2.2 = true := by
    intro vs
    induction vs with
    | nil => intro bt _ hbt; simpa using hbt
    | cons v rest ih =>
      intro bt hvs hbt
      rw [List.foldl_cons, vaAdd_def]
      exact ih _ (fun w hw => hvs w (List.mem_cons_of_mem _ hw))
        (btUpdate_leaf v (hvs v (List.mem_cons_self _ _)) bt hbt)
  intro vs hvs
  exact haux vs [] hvs (by simp)

lemma vaPrint_leaf : ∀ (bt : VA) (pfx : String),
    (∀ e ∈ bt, isLeafAgg e.2.2 = true) → vaPrint bt pfx = ([], true) := by
  intro bt
  induction bt with
  | nil => intro pfx _; simp [vaPrint]
  | cons e rest ih =>
    obtain ⟨tn, c, a⟩ := e
    intro pfx hall
    have ha : isLeafAgg a = true := hall _ (List.mem_cons_self _ _)
    have haggP : aggPrint a pfx = ([], true) := by
      cases a <;> first | (simp [isLeafAgg] at ha; done) | (rw [aggPrint.eq_def])
    have hrest := ih pfx (fun e he => hall e (List.mem_cons_of_mem _ he))
    simp [vaPrint, haggP, hrest]

lemma mainOutput_scalar (vs : List Value) (h : vs.all isScalar = true) :
    mainOutput vs = ([], true) := by
  have : mainOutput vs = vaPrint (rootAgg vs) "" := rfl
  rw [this]
  exact vaPrint_leaf _ _ (rootAgg_leaf vs (fun v hv => (List.all_eq_true.mp h) v hv))

lemma jsonEscChar_len (c : Char) : 1 ≤ (jsonEscChar c).length := by
  unfold jsonEscChar
  split_ifs <;> simp

lemma jsonEscape_len : ∀ cs : List Char, cs.length ≤ (jsonEscape cs).length := by
  intro cs
  induction cs with
  | nil => simp [jsonEscape]
  | cons c rest ih =>
    have := jsonEscChar_len c
    simp only [jsonEscape, List.length_append, List.length_cons]
    omega

lemma jsonDumps_len (s : String) : s.length + 2 ≤ (jsonDumps s).length := by
  unfold jsonDumps
  have h1 : (String.mk ('"' :: jsonEscape s.data ++ ['"'])).length =
      ('"' :: jsonEscape s.data ++ ['"']).length := rfl
  rw [h1]
  have h2 : s.length = s.data.length := rfl
  have := jsonEscape_len s.data
  simp only [List.length_append, List.length_cons]
  omega

lemma stylize_length (t sty : String) : (stylize t sty).length = sty.length + t.length + 4 := by
  unfold stylize
  rw [String.length_append, String.length_append]
  have : resetCode.length = 4 := rfl
  omega

lemma Cstr_long (s : String) (h : MAX_STRING_LENGTH < s.length) :
    Cstr s = stylize (pyDropLast (jsonDumps (pyTake s MAX_STRING_LENGTH))) (fg STRING_COLOR) ++
      "…" ++ stylize "\"" (fg STRING_COLOR) := by
  unfold Cstr
  rw [if_pos h]

lemma Cstr_long_length (s : String) (h : MAX_STRING_LENGTH < s.length) :
    MAX_STRING_LENGTH + 3 < (Cstr s).length := by
  rw [Cstr_long s h]
  rw [String.length_append, String.length_append, stylize_length, stylize_length]
  have htake : (pyTake s MAX_STRING_LENGTH).length = MAX_STRING_LENGTH := by
    have h1 : (pyTake s MAX_STRING_LENGTH).length = (s.data.take MAX_STRING_LENGTH).length := rfl
    have h2 : s.length = s.data.length := rfl
    rw [h1, List.length_take]
    rw [h2] at h
    omega
  have hdump := jsonDumps_len (pyTake s MAX_STRING_LENGTH)
  rw [htake] at hdump
  have hdrop : (pyDropLast (jsonDumps (pyTake s MAX_STRING_LENGTH))).length =
      (jsonDumps (pyTake s MAX_STRING_LENGTH)).length - 1 := by
    have h1 : (pyDropLast (jsonDumps (pyTake s MAX_STRING_LENGTH))).length =
        ((jsonDumps (pyTake s MAX_STRING_LENGTH)).data.dropLast).length := rfl
    rw [h1, List.length_dropLast]
    rfl
  rw [hdrop]
  have hfg : (fg STRING_COLOR).length = 10 := by decide
  have hell : ("…" : String).length = 1 := by decide
  have hq : ("\"" : String).length = 1 := by decide
  rw [hfg, hell, hq]
  have hM : MAX_STRING_LENGTH = 36 := rfl
  omega

/-- Claim C9: a freshly constructed BooleanAccumulator (zero `add` calls,
`true = 0` and `false = 0`) renders as the single (styled) token `"true"`,
because the `false == 0` branch of `__str__` is checked first; it is neither
an error nor the empty string. -/
theorem wtf_C9_fresh_bool_renders_true :
    aggStr (Agg.boolA 0 0) = stylize "true" (fg BOOLEAN_COLOR) ∧
      aggStr (Agg.boolA 0 0) ≠ "" := by
  constructor
  · rfl
  · decide

/-- Claim C6: for every sequence of `add` calls to a String or Number leaf
accumulator, the sum of the per-value occurrence counts recorded in its
counting dict equals the number of `add` calls received. -/
theorem wtf_C6_counts_sum_eq_adds : ∀ (ls : List String) (ln : List Int),
    sumCounts (leafAddAll ls) = ls.length ∧ sumCounts (leafAddAll ln) = ln.length := by
  intro ls ln
  constructor <;> (rw [leafAddAll_eq]; exact sumCounts_eq_length _)

/-- Claim C5, amended to the String and Integer accumulators: adding the
same multiset of values to a fresh accumulator in either order yields the
same rendered string; ties in count are broken by ascending value,
independent of insertion order.  The Number accumulator's float variant
violates order-independence (see `wtf_C5_counterexample`). -/
theorem wtf_C5_render_order_independent : ∀ (ls₁ ls₂ : List String) (ln₁ ln₂ : List Int),
    (List.Perm ls₁ ls₂ → strAggStr (leafAddAll ls₁) = strAggStr (leafAddAll ls₂)) ∧
    (List.Perm ln₁ ln₂ → intAggStr (leafAddAll ln₁) = intAggStr (leafAddAll ln₂)) := by
  intro ls₁ ls₂ ln₁ ln₂
  constructor
  · intro hp
    rw [leafAddAll_eq, leafAddAll_eq]
    exact distRender_perm sLe_order Cstr hp
  · intro hp
    rw [leafAddAll_eq, leafAddAll_eq]
    exact distRender_perm iLe_order Cnum hp

/-- Witness for C5 at concrete permuted inputs. -/
theorem wtf_C5_witness :
    List.Perm ["x", "y", "x"] ["y", "x", "x"] ∧
    strAggStr (leafAddAll ["x", "y", "x"]) = strAggStr (leafAddAll ["y", "x", "x"]) ∧
    List.Perm [(3 : Int), 4] [4, 3] ∧
    intAggStr (leafAddAll [(3 : Int), 4]) = intAggStr (leafAddAll [4, 3]) := by
  have h := wtf_C5_render_order_independent ["x", "y", "x"] ["y", "x", "x"] [3, 4] [4, 3]
  have hp1 : List.Perm ["x", "y", "x"] ["y", "x", "x"] := List.Perm.swap "y" "x" ["x"]
  have hp2 : List.Perm [(3 : Int), 4] [4, 3] := List.Perm.swap 4 3 []
  exact ⟨hp1, h.1 hp1, hp2, h.2 hp2⟩

/-- Counterexample for claim C3 as stated: for the 37-character string of
`'a'`s, the rendering of a long string is NOT bounded by the
truncation-plus-marker length (36 characters plus ellipsis, opening and
closing quote, i.e. 39): the styling escapes and the quotes make it 67
characters long. -/
theorem wtf_C3_counterexample :
    ¬ ((Cstr (String.mk (List.replicate 37 'a'))).length ≤ MAX_STRING_LENGTH + 3) := by
  decide

/-- Claim C3, amended: a string longer than `MAX_STRING_LENGTH` is rendered
as the styled JSON encoding of its first 36 characters without the closing
quote, then an ellipsis, then a styled closing quote; the part after the
ellipsis contains exactly one `"` character; but the total rendered length
always EXCEEDS the truncation-plus-marker length 39 (by the styling escapes,
the quotes, and any JSON escaping). -/
theorem wtf_C3_truncation (s : String) (h : MAX_STRING_LENGTH < s.length) :
    Cstr s = stylize (pyDropLast (jsonDumps (pyTake s MAX_STRING_LENGTH))) (fg STRING_COLOR) ++
        "…" ++ stylize "\"" (fg STRING_COLOR) ∧
      (stylize "\"" (fg STRING_COLOR)).data.count '"' = 1 ∧
      MAX_STRING_LENGTH + 3 < (Cstr s).length := by
  refine ⟨Cstr_long s h, by decide, Cstr_long_length s h⟩

/-- Witness for C3 at a concrete 37-character string. -/
theorem wtf_C3_witness :
    MAX_STRING_LENGTH < (String.mk (List.replicate 37 'b')).length ∧
      (Cstr (String.mk (List.replicate 37 'b')) =
        stylize (pyDropLast (jsonDumps (pyTake (String.mk (List.replicate 37 'b'))
          MAX_STRING_LENGTH))) (fg STRING_COLOR) ++ "…" ++ stylize "\"" (fg STRING_COLOR) ∧
      (stylize "\"" (fg STRING_COLOR)).data.count '"' = 1 ∧
      MAX_STRING_LENGTH + 3 < (Cstr (String.mk (List.replicate 37 'b'))).length) :=
  ⟨by decide, wtf_C3_truncation (String.mk (List.replicate 37 'b')) (by decide)⟩

/-- Counterexample for claim C1 as stated: the run consuming the single
input line `1` produces NO output lines at all, although the root
aggregator's `render()` exists and is a nonempty string — `main` never
prints it.  So the first output line is not the root's rendering. -/
theorem wtf_C1_counterexample :
    (mainOutput [Value.int 1]).1 = [] ∧
    vaStr (rootAgg [Value.int 1]) ≠ none ∧
    vaStr (rootAgg [Value.int 1]) ≠ some "" ∧
    specClaimedOutput [Value.int 1] ≠ some (mainOutput [Value.int 1]).1 := by
  have hA : AGGREGATORS "int" = Agg.intA [] := rfl
  have hroot : rootAgg [Value.int 1] = [("int", 1, Agg.intA [1])] := by
    simp [rootAgg, vaAdd_def, btUpdate, aggAdd.eq_def, hA, Value.typeName]
  have hout : mainOutput [Value.int 1] = ([], true) := mainOutput_scalar [Value.int 1] (by decide)
  refine ⟨?_, ?_, ?_, ?_⟩
  · rw [hout]
  · rw [hroot]; decide
  · rw [hroot]; decide
  · show (match vaStr (rootAgg [Value.int 1]) with
      | none => none
      | some r => some (r :: (vaPrint (rootAgg [Value.int 1]) "").1)) ≠
        some (mainOutput [Value.int 1]).1
    rw [hroot, hout]
    simp only [vaPrint, aggPrint.eq_def]
    decide

/-- Claim C1, amended: the program's standard output is exactly the
`printTree("")` lines of the root aggregator — the root's own `render()` is
never printed; in particular a run whose inputs are all scalars prints
nothing at all. -/
theorem wtf_C1_output_is_printTree_only : ∀ vs : List Value,
    mainOutput vs = vaPrint (rootAgg vs) "" ∧
    (vs.all isScalar = true → mainOutput vs = ([], true)) := by
  intro vs
  exact ⟨rfl, mainOutput_scalar vs⟩

/-- Witness for C1 at a concrete scalar input. -/
theorem wtf_C1_witness :
    mainOutput [Value.bool true] = vaPrint (rootAgg [Value.bool true]) "" ∧
    mainOutput [Value.bool true] = ([], true) := by
  have h := wtf_C1_output_is_printTree_only [Value.bool true]
  exact ⟨h.1, h.2 (by decide)⟩

/-- Claim C2 (code bug): `ValueAggregator.__str__` sorts its items with the
key `(x[1], x[0])` — the aggregator OBJECT first — instead of the intended
`(cnt, type name)`; with two registered kinds the sort compares two
aggregator instances and CPython raises `TypeError`, so `render()` fails
(modelled as `none`) exactly where the claim promises a count-sorted
summary.  With a single registered kind no comparison happens and the
rendering succeeds. -/
theorem wtf_C2_render_crashes_on_two_kinds :
    vaStr (rootAgg [Value.int 1, Value.str "a"]) = none ∧
    vaStr (rootAgg [Value.int 2, Value.int 3]) ≠ none := by
  have hA1 : AGGREGATORS "int" = Agg.intA [] := rfl
  have hA2 : AGGREGATORS "str" = Agg.strA [] := rfl
  have h1 : rootAgg [Value.int 1, Value.str "a"] =
      [("int", 1, Agg.intA [1]), ("str", 1, Agg.strA ["a"])] := by
    simp [rootAgg, vaAdd_def, btUpdate, aggAdd.eq_def, hA1, hA2, Value.typeName]
  have h2 : rootAgg [Value.int 2, Value.int 3] = [("int", 2, Agg.intA [2, 3])] := by
    simp [rootAgg, vaAdd_def, btUpdate, aggAdd.eq_def, hA1, Value.typeName]
  rw [h1, h2]
  exact ⟨rfl, by decide⟩

lemma distRender_claim {α : Type} [DecidableEq α] {le : α → α → Bool} (h : LeOrder le)
    (fmt : α → String) (l : List α) :
    (2 ≤ (countsList l).length →
      List.Sorted (pairR le) (sortedCounts le l) ∧
      List.Perm (sortedCounts le l) (countsList l) ∧
      (MAX_VALUES_TO_SHOW < (countsList l).length →
        ∀ mn mx, pyMin le l = some mn → pyMax le l = some mx →
          distRender le fmt l =
            Ccnt (countsList l).length ++ "←|" ++ fmt mn ++ "…" ++ fmt mx ++ "|: " ++
              String.intercalate ", "
                (((sortedCounts le l).take MAX_VALUES_TO_SHOW).map (entryFmt fmt) ++
                  [Ccnt (((sortedCounts le l).drop MAX_VALUES_TO_SHOW).map (fun p => p.2)).sum ++
                    "×…"])) ∧
      ((countsList l).length ≤ MAX_VALUES_TO_SHOW →
        distRender le fmt l =
          String.intercalate ", "
            (((sortedCounts le l).take MAX_VALUES_TO_SHOW).map (entryFmt fmt)))) ∧
    (∀ v c, countsList l = [(v, c)] → distRender le fmt l = fmt v) := by
  constructor
  · intro h2
    refine ⟨sortedCounts_sorted h l, sortedCounts_perm le l, ?_, ?_⟩
    · intro h3 mn mx hmn hmx
      exact distRender_many le fmt l h3 mn mx hmn hmx
    · intro h3
      exact distRender_few le fmt l h2 h3
  · intro v c hc
    exact distRender_one le fmt l v c hc

/-- Claim C4, amended to the String and Integer accumulators: with at
least two distinct observed values, `render()` sorts the distinct
`(value, count)` pairs by count descending then value ascending (the
sorted list is ordered by `pairR` and is a permutation of the counting
dict's items) and shows the top `MAX_VALUES_TO_SHOW`; when distinct values
remain beyond those, a `"<rest>×…"` entry is appended and the string is
prefixed with `"<distinct>←|<min>…<max>|: "` over all observed values;
when the top 3 cover every distinct value, the range prefix is omitted;
with exactly one distinct value, that value is rendered alone.  The Number
accumulator's float variant violates the claim in the presence of NaN
(see `wtf_C4_counterexample`). -/
theorem wtf_C4_distribution_render : ∀ (ls : List String) (ln : List Int),
    ((2 ≤ (countsList ls).length →
      List.Sorted (pairR sLe) (sortedCounts sLe ls) ∧
      List.Perm (sortedCounts sLe ls) (countsList ls) ∧
      (MAX_VALUES_TO_SHOW < (countsList ls).length →
        ∀ mn mx, pyMin sLe ls = some mn → pyMax sLe ls = some mx →
          strAggStr ls =
            Ccnt (countsList ls).length ++ "←|" ++ Cstr mn ++ "…" ++ Cstr mx ++ "|: " ++
              String.intercalate ", "
                (((sortedCounts sLe ls).take MAX_VALUES_TO_SHOW).map (entryFmt Cstr) ++
                  [Ccnt (((sortedCounts sLe ls).drop MAX_VALUES_TO_SHOW).map (fun p => p.2)).sum ++
                    "×…"])) ∧
      ((countsList ls).length ≤ MAX_VALUES_TO_SHOW →
        strAggStr ls =
          String.intercalate ", "
            (((sortedCounts sLe ls).take MAX_VALUES_TO_SHOW).map (entryFmt Cstr)))) ∧
    (∀ v c, countsList ls = [(v, c)] → strAggStr ls = Cstr v)) ∧
    ((2 ≤ (countsList ln).length →
      List.Sorted (pairR iLe) (sortedCounts iLe ln) ∧
      List.Perm (sortedCounts iLe ln) (countsList ln) ∧
      (MAX_VALUES_TO_SHOW < (countsList ln).length →
        ∀ mn mx, pyMin iLe ln = some mn → pyMax iLe ln = some mx →
          intAggStr ln =
            Ccnt (countsList ln).length ++ "←|" ++ Cnum mn ++ "…" ++ Cnum mx ++ "|: " ++
              String.intercalate ", "
                (((sortedCounts iLe ln).take MAX_VALUES_TO_SHOW).map (entryFmt Cnum) ++
                  [Ccnt (((sortedCounts iLe ln).drop MAX_VALUES_TO_SHOW).map (fun p => p.2)).sum ++
                    "×…"])) ∧
      ((countsList ln).length ≤ MAX_VALUES_TO_SHOW →
        intAggStr ln =
          String.intercalate ", "
            (((sortedCounts iLe ln).take MAX_VALUES_TO_SHOW).map (entryFmt Cnum)))) ∧
    (∀ v c, countsList ln = [(v, c)] → intAggStr ln = Cnum v)) := by
  intro ls ln
  exact ⟨distRender_claim sLe_order Cstr ls, distRender_claim iLe_order Cnum ln⟩

/-- Witness for C4 at concrete inputs: a string list with four distinct
values (range prefix present) and an int list with two distinct values (no
prefix). -/
theorem wtf_C4_witness :
    2 ≤ (countsList ["b", "a", "b", "c", "d"]).length ∧
    List.Sorted (pairR sLe) (sortedCounts sLe ["b", "a", "b", "c", "d"]) ∧
    strAggStr ["b", "a", "b", "c", "d"] =
      Ccnt (countsList ["b", "a", "b", "c", "d"]).length ++ "←|" ++ Cstr "a" ++ "…" ++ Cstr "d" ++
        "|: " ++ String.intercalate ", "
          (((sortedCounts sLe ["b", "a", "b", "c", "d"]).take MAX_VALUES_TO_SHOW).map
              (entryFmt Cstr) ++
            [Ccnt (((sortedCounts sLe ["b", "a", "b", "c", "d"]).drop
                MAX_VALUES_TO_SHOW).map (fun p => p.2)).sum ++ "×…"]) ∧
    intAggStr [5, 7] =
      String.intercalate ", "
        (((sortedCounts iLe [5, 7]).take MAX_VALUES_TO_SHOW).map (entryFmt Cnum)) := by
  obtain ⟨hs, hn⟩ := wtf_C4_distribution_render ["b", "a", "b", "c", "d"] [5, 7]
  have h2 : 2 ≤ (countsList ["b", "a", "b", "c", "d"]).length := by decide
  obtain ⟨hsort, _, hmany, _⟩ := hs.1 h2
  refine ⟨h2, hsort, hmany (by decide) "a" "d" (by decide) (by decide), ?_⟩
  exact (hn.1 (by decide)).2.2.2 (by decide)

/-- Claim C7: every array fed to an `ArrayAggregator` forwards each of its
elements, in array order, to the single pooled element `ValueAggregator`
(the pooled state is the fold of all elements of all arrays, in order), so
the pooled aggregator's total additions equal the sum of the array lengths;
for the concrete input `[1,2,3]`, `[4,5]` the length range is 2…3 and the
pooled aggregator received 5 values. -/
theorem wtf_C7_array_elements_pooled : ∀ arrs : List (List Value),
    (arrItems (arrRun arrs) = (arrs.flatten).foldl vaAdd [] ∧
      vaTotalCnt (arrItems (arrRun arrs)) = (arrs.map List.length).sum) ∧
    (arrMinLen (arrRun [[Value.int 1, Value.int 2, Value.int 3],
        [Value.int 4, Value.int 5]]) = some 2 ∧
      arrMaxLen (arrRun [[Value.int 1, Value.int 2, Value.int 3],
        [Value.int 4, Value.int 5]]) = some 3 ∧
      vaTotalCnt (arrItems (arrRun [[Value.int 1, Value.int 2, Value.int 3],
        [Value.int 4, Value.int 5]])) = 5) := by
  intro arrs
  have hinit : AGGREGATORS "list" = Agg.arrA [] none none := rfl
  have hitems : ∀ as : List (List Value), arrItems (arrRun as) = (as.flatten).foldl vaAdd [] := by
    intro as
    unfold arrRun
    rw [hinit]
    exact arrFold_items as [] none none
  constructor
  · refine ⟨hitems arrs, ?_⟩
    rw [hitems arrs, vaTotalCnt_foldl]
    have h0 : vaTotalCnt [] = 0 := rfl
    rw [h0, List.length_flatten]
    omega
  · have hA : AGGREGATORS "int" = Agg.intA [] := rfl
    have e1 : arrRun [[Value.int 1, Value.int 2, Value.int 3], [Value.int 4, Value.int 5]] =
        Agg.arrA [("int", 5, Agg.intA [1, 2, 3, 4, 5])] (some 2) (some 3) := by
      simp [arrRun, hinit, aggAdd.eq_def, vaAddList, vaAdd_def, btUpdate, hA, Value.typeName,
        minUpdate, maxUpdate]
    rw [e1]
    exact ⟨rfl, rfl, rfl⟩

/-- Claim C8: after at least one `add`, a `DictAggregator` has
`min_len ≤ max_len` (both set), and if exactly one map was added both equal
that map's key count. -/
theorem wtf_C8_dict_minmax (objs : List (List (String × Value))) (h : objs ≠ []) :
    (∃ m M, dictMinLen (dictRun objs) = some m ∧ dictMaxLen (dictRun objs) = some M ∧ m ≤ M) ∧
    (∀ o, objs = [o] →
      dictMinLen (dictRun objs) = some o.length ∧ dictMaxLen (dictRun objs) = some o.length) := by
  have hinit : AGGREGATORS "dict" = Agg.dictA [] none none := rfl
  rcases objs with _ | ⟨o, rest⟩
  · exact absurd rfl h
  constructor
  · unfold dictRun
    rw [List.foldl_cons, hinit, aggAdd_dict]
    have hmin : minUpdate none o.length = some o.length := rfl
    have hmax : maxUpdate none o.length = some o.length := rfl
    rw [hmin, hmax]
    obtain ⟨ks2, m2, M2, heq, hle⟩ :=
      dictFold_minmax rest (dictEntriesAdd [] o) o.length o.length (le_refl _)
    rw [heq]
    exact ⟨m2, M2, rfl, rfl, hle⟩
  · intro o' ho
    have ho1 : o = o' := by injection ho
    have ho2 : rest = [] := by injection ho
    rw [ho1, ho2] at *
    unfold dictRun
    rw [List.foldl_cons, hinit, aggAdd_dict, List.foldl_nil]
    have hmin : minUpdate none o'.length = some o'.length := rfl
    have hmax : maxUpdate none o'.length = some o'.length := rfl
    rw [hmin, hmax]
    exact ⟨rfl, rfl⟩

/-- Witness for C8 at a concrete single two-key map. -/
theorem wtf_C8_witness :
    ([[("a", Value.int 1), ("b", Value.null)]] : List (List (String × Value))) ≠ [] ∧
    (∃ m M, dictMinLen (dictRun [[("a", Value.int 1), ("b", Value.null)]]) = some m ∧
      dictMaxLen (dictRun [[("a", Value.int 1), ("b", Value.null)]]) = some M ∧ m ≤ M) ∧
    dictMinLen (dictRun [[("a", Value.int 1), ("b", Value.null)]]) = some 2 ∧
    dictMaxLen (dictRun [[("a", Value.int 1), ("b", Value.null)]]) = some 2 := by
  have hne : ([[("a", Value.int 1), ("b", Value.null)]] : List (List (String × Value))) ≠ [] :=
    List.cons_ne_nil _ _
  have h := wtf_C8_dict_minmax [[("a", Value.int 1), ("b", Value.null)]] hne
  have hs := h.2 [("a", Value.int 1), ("b", Value.null)] rfl
  exact ⟨hne, h.1, hs.1, hs.2⟩

/-- Claim C10: the `by_type` registry of a `ValueAggregator` keeps its kinds
in first-observation order (the keys of the root aggregator are exactly the
first-occurrence list of the input type names), and `printTree` walks the
registry in that insertion order — so the relative order of kind subtrees
depends on input order: permuting a dict line and an array line swaps the
corresponding output blocks. -/
theorem wtf_C10_print_insertion_order :
    (∀ vs : List Value, byTypeKeys (rootAgg vs) = pyKeys (vs.map Value.typeName)) ∧
    List.Perm [Value.dict [("a", Value.int 1)], Value.arr [Value.int 2]]
      [Value.arr [Value.int 2], Value.dict [("a", Value.int 1)]] ∧
    byTypeKeys (rootAgg [Value.dict [("a", Value.int 1)], Value.arr [Value.int 2]]) =
      ["dict", "list"] ∧
    byTypeKeys (rootAgg [Value.arr [Value.int 2], Value.dict [("a", Value.int 1)]]) =
      ["list", "dict"] ∧
    (mainOutput [Value.dict [("a", Value.int 1)], Value.arr [Value.int 2]]).1 ≠
      (mainOutput [Value.arr [Value.int 2], Value.dict [("a", Value.int 1)]]).1 := by
  refine ⟨rootAgg_keys, List.Perm.swap _ _ _, ?_, ?_, ?_⟩
  · rw [rootAgg_keys]; decide
  · rw [rootAgg_keys]; decide
  · have hA1 : AGGREGATORS "dict" = Agg.dictA [] none none := rfl
    have hA2 : AGGREGATORS "list" = Agg.arrA [] none none := rfl
    have h1 : rootAgg [Value.dict [("a", Value.int 1)], Value.arr [Value.int 2]] =
        [("dict", 1, Agg.dictA [("a", [("int", 1, Agg.intA [1])])] (some 1) (some 1)),
         ("list", 1, Agg.arrA [("int", 1, Agg.intA [2])] (some 1) (some 1))] := by
      simp [rootAgg, vaAdd_def, btUpdate, aggAdd.eq_def, hA1, hA2, Value.typeName,
        dictEntriesAdd, dictKeyAdd, vaAddList, minUpdate, maxUpdate, AGGREGATORS]
    have h2 : rootAgg [Value.arr [Value.int 2], Value.dict [("a", Value.int 1)]] =
        [("list", 1, Agg.arrA [("int", 1, Agg.intA [2])] (some 1) (some 1)),
         ("dict", 1, Agg.dictA [("a", [("int", 1, Agg.intA [1])])] (some 1) (some 1))] := by
      simp [rootAgg, vaAdd_def, btUpdate, aggAdd.eq_def, hA1, hA2, Value.typeName,
        dictEntriesAdd, dictKeyAdd, vaAddList, minUpdate, maxUpdate, AGGREGATORS]
    show (vaPrint (rootAgg _) "").1 ≠ (vaPrint (rootAgg _) "").1
    rw [h1, h2]
    simp only [vaPrint, aggPrint.eq_def, dictBlocks, concatBlocks, vaStr, List.insertionSort,
      List.orderedInsert]
    decide

/-- Counterexample for claim C5 as stated: the float variant of the Number
accumulator is NOT order-independent.  `[0.0, -0.0]` and `[-0.0, 0.0]` are
orderings of one multiset, but `0.0 == -0.0` collapses them to a single
counting-dict key that keeps the FIRST-inserted object, so `render()`
yields the styled `0.0` in one order and the styled `-0.0` in the other. -/
theorem wtf_C5_counterexample :
    List.Perm [PyFloat.fin false 0 1, PyFloat.fin true 0 1]
      [PyFloat.fin true 0 1, PyFloat.fin false 0 1] ∧
    fltAggStr (leafAddAll [PyFloat.fin false 0 1, PyFloat.fin true 0 1]) =
      stylize "0.0" (fg NUMBER_COLOR) ∧
    fltAggStr (leafAddAll [PyFloat.fin true 0 1, PyFloat.fin false 0 1]) =
      stylize "-0.0" (fg NUMBER_COLOR) ∧
    fltAggStr (leafAddAll [PyFloat.fin false 0 1, PyFloat.fin true 0 1]) ≠
      fltAggStr (leafAddAll [PyFloat.fin true 0 1, PyFloat.fin false 0 1]) := by
  decide

/-- Counterexample for claim C4 as stated: a float accumulator holding NaN
and `1.0` (two distinct values, tied counts) renders its entries in
insertion order, NOT sorted by count descending then value ascending — the
sorted items fail `pairRF` because no comparison with NaN succeeds — and
`min()` over all observed values is insertion-order dependent, so the
claimed `<min>…<max>` range over the observed multiset is not even
well-defined. -/
theorem wtf_C4_counterexample :
    pySorted ltFltKey (pyCounts pyFltEq [PyFloat.nan, PyFloat.fin false 1 1]) =
      [(PyFloat.nan, 1), (PyFloat.fin false 1 1, 1)] ∧
    ¬ List.Sorted pairRF
      (pySorted ltFltKey (pyCounts pyFltEq [PyFloat.nan, PyFloat.fin false 1 1])) ∧
    fltAggStr [PyFloat.nan, PyFloat.fin false 1 1] =
      String.intercalate ", "
        [Ccnt 1 ++ "×" ++ CnumF PyFloat.nan, Ccnt 1 ++ "×" ++ CnumF (PyFloat.fin false 1 1)] ∧
    List.Perm [PyFloat.nan, PyFloat.fin false 1 1] [PyFloat.fin false 1 1, PyFloat.nan] ∧
    fltMin [PyFloat.nan, PyFloat.fin false 1 1] = some PyFloat.nan ∧
    fltMin [PyFloat.fin false 1 1, PyFloat.nan] = some (PyFloat.fin false 1 1) ∧
    PyFloat.nan ≠ PyFloat.fin false 1 1 := by
  decide
